import Mathlib

/-!
Verification development for the booru-rs request-construction, pagination
and resilience core.  Rust source files are shallowly embedded as Lean
definitions: machine integers become `Nat`, `f64` arithmetic in the retry
and rate-limit code becomes exact `ℚ` arithmetic (with explicit floors
where the source truncates), `Instant`/`Duration` become explicit numeric
time parameters, and fallible operations return `Except`/`Option`.
-/

/-- The error enum from src/error.rs, restricted to the variants the
embedded core can produce or inspect (the `Request`/`Parse`/`Io` payloads
wrap foreign library types and are represented by plain strings). -/
inductive BooruError where
  | request (msg : String)
  | parse (msg : String)
  | tagLimitExceeded (client : String) (max : Nat) (actual : Nat)
  | postNotFound (id : Nat)
  | emptyResponse
  | invalidUrl (url : String)
  | unauthorized (msg : String)
  | invalidTag (tag : String) (reason : String)
  | rateLimited
  | ioError (msg : String)
deriving Repr, DecidableEq

/-- A backend capability descriptor: the associated constants of one
implementation of the `Client` trait (src/client/mod.rs): `URL`, `SORT`
and `MAX_TAGS`, together with the client type name used in
`TagLimitExceeded` errors. -/
structure Backend where
  name : String
  URL : String
  SORT : String
  MAX_TAGS : Option Nat
deriving Repr, DecidableEq

/-- `DanbooruClient` constants (src/client/danbooru.rs lines 59-61). -/
def danbooru : Backend :=
  { name := "DanbooruClient", URL := "https://danbooru.donmai.us",
    SORT := "order:", MAX_TAGS := some 2 }

/-- `GelbooruClient` constants (src/client/gelbooru.rs lines 56-58). -/
def gelbooru : Backend :=
  { name := "GelbooruClient", URL := "https://gelbooru.com",
    SORT := "sort:", MAX_TAGS := none }

/-- `SafebooruClient` constants (src/client/safebooru.rs lines 46-48). -/
def safebooru : Backend :=
  { name := "SafebooruClient", URL := "https://safebooru.org",
    SORT := "sort:", MAX_TAGS := none }

/-- The `Sort` enum from src/client/generic.rs. -/
inductive SortOrder where
  | id | score | rating | user | height | width | source | updated | random
deriving Repr, DecidableEq

/-- The `Display` implementation for `Sort` (src/client/generic.rs). -/
def SortOrder.toDisplay : SortOrder → String
  | .id => "id"
  | .score => "score"
  | .rating => "rating"
  | .user => "user"
  | .height => "height"
  | .width => "width"
  | .source => "source"
  | .updated => "updated"
  | .random => "random"

/-- `ClientBuilder` fields (src/client/mod.rs lines 120-130); the
`reqwest::Client` handle and the phantom marker carry no query data and
are omitted, the backend's constants are passed explicitly to each
operation that reads them. -/
structure ClientBuilder where
  key : Option String := none
  user : Option String := none
  tags : List String := []
  limit : Nat := 100
  url : String
  page : Nat := 0
deriving Repr, DecidableEq

/-- `ClientBuilder::new` (src/client/mod.rs lines 205-216). -/
def ClientBuilder.new (B : Backend) : ClientBuilder :=
  { url := B.URL }

/-- `ClientBuilder::tag` (src/client/mod.rs lines 275-290): errors with
`TagLimitExceeded` when `MAX_TAGS` is set and already reached, reporting
`actual = tags.len() + 1`; otherwise appends the tag. -/
def ClientBuilder.tag (B : Backend) (b : ClientBuilder) (t : String) :
    Except BooruError ClientBuilder :=
  match B.MAX_TAGS with
  | some max =>
      if max ≤ b.tags.length then
        .error (.tagLimitExceeded B.name max (b.tags.length + 1))
      else
        .ok { b with tags := b.tags ++ [t] }
  | none => .ok { b with tags := b.tags ++ [t] }

/-- `ClientBuilder::rating` (src/client/mod.rs lines 307-311): appends
`rating:<r>` unconditionally; the rating is already stringified via its
`Into<String>` instance. -/
def ClientBuilder.rating (b : ClientBuilder) (r : String) : ClientBuilder :=
  { b with tags := b.tags ++ ["rating:" ++ r] }

/-- `ClientBuilder::random` (src/client/mod.rs lines 323-327). -/
def ClientBuilder.random (B : Backend) (b : ClientBuilder) : ClientBuilder :=
  { b with tags := b.tags ++ [B.SORT ++ "random"] }

/-- `ClientBuilder::sort` (src/client/mod.rs lines 330-334). -/
def ClientBuilder.sortBy (B : Backend) (b : ClientBuilder) (order : SortOrder) :
    ClientBuilder :=
  { b with tags := b.tags ++ [B.SORT ++ order.toDisplay] }

/-- `ClientBuilder::blacklist_tag` (src/client/mod.rs lines 339-343). -/
def ClientBuilder.blacklist_tag (b : ClientBuilder) (t : String) : ClientBuilder :=
  { b with tags := b.tags ++ ["-" ++ t] }

/-- `ClientBuilder::limit` (src/client/mod.rs lines 316-320). -/
def ClientBuilder.setLimit (b : ClientBuilder) (n : Nat) : ClientBuilder :=
  { b with limit := n }

/-- `ClientBuilder::page` (src/client/mod.rs lines 357-361). -/
def ClientBuilder.setPage (b : ClientBuilder) (n : Nat) : ClientBuilder :=
  { b with page := n }

/-- `ClientBuilder::tags` (src/client/mod.rs lines 382-391), renamed to
avoid clashing with the `tags` field: folds `tag` over the list, stopping
at the first error. -/
def ClientBuilder.tagsMany (B : Backend) (b : ClientBuilder) :
    List String → Except BooruError ClientBuilder
  | [] => .ok b
  | t :: ts =>
      match ClientBuilder.tag B b t with
      | .ok b2 => ClientBuilder.tagsMany B b2 ts
      | .error e => .error e

/-- `ClientBuilder::tag_count` (src/client/mod.rs lines 421-424). -/
def ClientBuilder.tag_count (b : ClientBuilder) : Nat :=
  b.tags.length

/-- Successful `tag` calls on a limited backend happen strictly below the
limit and append exactly the given tag. -/
theorem tag_ok_length (B : Backend) (b b2 : ClientBuilder) (t : String) (m : Nat)
    (hmax : B.MAX_TAGS = some m) (h : ClientBuilder.tag B b t = .ok b2) :
    b.tags.length < m ∧ b2.tags = b.tags ++ [t] := by
  unfold ClientBuilder.tag at h
  rw [hmax] at h
  by_cases hc : m ≤ b.tags.length
  · simp [hc] at h
  · simp [hc] at h
    exact ⟨Nat.lt_of_not_le hc, by rw [← h]⟩

/-- C1: for every backend with a finite maximum tag count `m` and every
builder currently holding exactly `m` tags, `tag` fails with
`TagLimitExceeded` reporting `max = m` and `attempted = m + 1`, and no
modified builder is produced (the input builder, a pure value, is
untouched, so its tag count remains `m`). -/
theorem tag_at_limit_fails (B : Backend) (b : ClientBuilder) (t : String) (m : Nat)
    (hmax : B.MAX_TAGS = some m) (hlen : b.tags.length = m) :
    ClientBuilder.tag B b t = .error (.tagLimitExceeded B.name m (m + 1)) ∧
    ∀ b2, ClientBuilder.tag B b t ≠ .ok b2 := by
  unfold ClientBuilder.tag
  rw [hmax, hlen]
  simp

/-- C1 witness: the Danbooru backend (`MAX_TAGS = 2`) with two tags
rejects a third with `max = 2`, `attempted = 3`. -/
theorem tag_at_limit_fails_witness :
    ClientBuilder.tag danbooru { url := "u", tags := ["a", "b"] } "c"
      = .error (.tagLimitExceeded "DanbooruClient" 2 3) :=
  (tag_at_limit_fails danbooru { url := "u", tags := ["a", "b"] } "c" 2 rfl rfl).1

/-- C2 counterexample: on Danbooru (`MAX_TAGS = some 2`), the sequence
`new → tag "a" → tag "b" → rating "general"` ends with 3 tags, violating
the claimed invariant `tags.len() ≤ m`: `rating` (like `sort`, `random`
and `blacklist_tag`) appends its synthesized tag without any limit
check. -/
theorem rating_exceeds_tag_limit :
    danbooru.MAX_TAGS = some 2 ∧
    Except.map (fun b => (ClientBuilder.rating b "general").tags.length)
      (Except.bind (ClientBuilder.tag danbooru (ClientBuilder.new danbooru) "a")
        (fun b => ClientBuilder.tag danbooru b "b")) = .ok 3 ∧
    ¬ (3 ≤ 2) := by
  refine ⟨rfl, rfl, by decide⟩

/-- C2 amended: on a backend with finite maximum `m`, the invariant
`tags.len() ≤ m` is preserved by every sequence of user-tag insertions
through `tag`/`tags` (which enforce the limit), but the synthesized-tag
operations do not count against the limit bookkeeping: `rating`, `sort`,
`random` and `blacklist_tag` each append one tag unconditionally and can
push the count past `m`. -/
theorem tag_limit_invariant_amended (B : Backend) (m : Nat)
    (hmax : B.MAX_TAGS = some m) :
    (∀ b b2 ts, b.tags.length ≤ m → ClientBuilder.tagsMany B b ts = .ok b2 →
        b2.tags.length ≤ m) ∧
    (∀ b r, (ClientBuilder.rating b r).tags.length = b.tags.length + 1) ∧
    (∀ b o, (ClientBuilder.sortBy B b o).tags.length = b.tags.length + 1) ∧
    (∀ b, (ClientBuilder.random B b).tags.length = b.tags.length + 1) ∧
    (∀ b t, (ClientBuilder.blacklist_tag b t).tags.length = b.tags.length + 1) := by
  refine ⟨?_, ?_, ?_, ?_, ?_⟩
  · intro b b2 ts
    induction ts generalizing b with
    | nil =>
        intro hle h
        unfold ClientBuilder.tagsMany at h
        cases h
        exact hle
    | cons t ts ih =>
        intro hle h
        unfold ClientBuilder.tagsMany at h
        cases htag : ClientBuilder.tag B b t with
        | error e => rw [htag] at h; cases h
        | ok b1 =>
            rw [htag] at h
            have hlen := tag_ok_length B b b1 t m hmax htag
            refine ih b1 ?_ h
            rw [hlen.2]
            simp
            exact hlen.1
  · intro b r
    unfold ClientBuilder.rating
    simp
  · intro b o
    unfold ClientBuilder.sortBy
    simp
  · intro b
    unfold ClientBuilder.random
    simp
  · intro b t
    unfold ClientBuilder.blacklist_tag
    simp

/-- C2 amended witness: concrete run of the user-tag part on Danbooru. -/
theorem tag_limit_invariant_amended_witness :
    ({ url := "https://danbooru.donmai.us", tags := ["a", "b"] } : ClientBuilder).tags.length ≤ 2 :=
  (tag_limit_invariant_amended danbooru 2 rfl).1 (ClientBuilder.new danbooru) _
    ["a", "b"] (by decide) rfl

/-- `RetryConfig` (src/retry.rs lines 17-27).  Durations are rational
numbers of milliseconds (`Duration` has sub-millisecond precision); the
`f64` backoff factor is embedded as an exact rational. -/
structure RetryConfig where
  max_retries : Nat
  initial_delay : ℚ
  max_delay : ℚ
  backoff_factor : ℚ
deriving DecidableEq

/-- `RetryConfig::delay_for_attempt` (src/retry.rs lines 81-91).
`initial_delay.as_millis()` truncates to whole milliseconds; the product
`delay_ms` is truncated again by `Duration::from_millis(delay_ms as u64)`
(`Int.toNat ∘ Int.floor` clamps negatives to zero exactly as the `as u64`
cast does); the `min` cap applies to the truncated value.  The `powi`
exponent `attempt.saturating_sub(1)` is `Nat` subtraction. -/
def RetryConfig.delay_for_attempt (c : RetryConfig) (attempt : Nat) : ℚ :=
  if attempt = 0 then 0
  else
    let delay_ms : ℚ :=
      ((Int.floor c.initial_delay).toNat : ℚ) * c.backoff_factor ^ (attempt - 1)
    let delay : ℚ := ((Int.floor delay_ms).toNat : ℚ)
    min delay c.max_delay

/-- Modelled from the claim's words (spec section 4.5): delay for attempt
`n ≥ 1` is `min(initial_delay * backoff_factor^(n-1), max_delay)` with no
truncation; attempt 0 has zero delay. -/
def specDelay (c : RetryConfig) (n : Nat) : ℚ :=
  if n = 0 then 0
  else min (c.initial_delay * c.backoff_factor ^ (n - 1)) c.max_delay

/-- C7 counterexample: with `initial_delay = 1ms`, `backoff_factor = 2.5`
(both exactly representable in `f64`), `max_delay = 5000ms`, the delay the
code computes for attempt 2 is 2ms (`2.5 as u64` truncates), not the
claimed `min(1ms * 2.5, 5000ms) = 2.5ms`. -/
theorem delay_truncation_counterexample :
    RetryConfig.delay_for_attempt ⟨3, 1, 5000, 5/2⟩ 2 = 2 ∧
    specDelay ⟨3, 1, 5000, 5/2⟩ 2 = 5/2 ∧
    RetryConfig.delay_for_attempt ⟨3, 1, 5000, 5/2⟩ 2
      ≠ specDelay ⟨3, 1, 5000, 5/2⟩ 2 := by
  refine ⟨?_, ?_, ?_⟩ <;>
    norm_num [RetryConfig.delay_for_attempt, specDelay, Int.toNat]

/-- C7 amended: attempt 0 has zero delay, and for `n ≥ 1` the delay is
`min(initial_delay * backoff_factor^(n-1), max_delay)` whenever the
initial delay and the product are whole numbers of milliseconds (in
general the product is truncated to whole milliseconds before the cap);
in particular with `initial_delay = 100ms`, `factor = 2`,
`max_delay = 5000ms` the delays are exactly `0, 100, 200, 400, ...`
capped at `5000`. -/
theorem delay_for_attempt_amended :
    (∀ (c : RetryConfig) (n : Nat),
      ((Int.floor c.initial_delay).toNat : ℚ) = c.initial_delay →
      (∃ k : Nat, c.initial_delay * c.backoff_factor ^ (n - 1) = (k : ℚ)) →
      RetryConfig.delay_for_attempt c n = specDelay c n) ∧
    (∀ n : Nat,
      RetryConfig.delay_for_attempt ⟨3, 100, 5000, 2⟩ (n + 1)
        = min ((100 : ℚ) * 2 ^ n) 5000) ∧
    RetryConfig.delay_for_attempt ⟨3, 100, 5000, 2⟩ 0 = 0 := by
  have hgen : ∀ (c : RetryConfig) (n : Nat),
      ((Int.floor c.initial_delay).toNat : ℚ) = c.initial_delay →
      (∃ k : Nat, c.initial_delay * c.backoff_factor ^ (n - 1) = (k : ℚ)) →
      RetryConfig.delay_for_attempt c n = specDelay c n := by
    intro c n h1 hk
    obtain ⟨k, hk⟩ := hk
    unfold RetryConfig.delay_for_attempt specDelay
    by_cases hn : n = 0
    · simp [hn]
    · simp only [hn, if_false]
      rw [h1, hk]
      norm_num
  refine ⟨hgen, ?_, ?_⟩
  · intro n
    have h := hgen ⟨3, 100, 5000, 2⟩ (n + 1) (by norm_num [Int.toNat])
      ⟨100 * 2 ^ n, by push_cast; simp⟩
    rw [h]
    unfold specDelay
    simp
  · rfl

/-- C7 amended witness: the refinement applied at the concrete
configuration `initial = 100ms, factor = 2, max = 5000ms`, attempt 3. -/
theorem delay_for_attempt_amended_witness :
    RetryConfig.delay_for_attempt ⟨3, 100, 5000, 2⟩ 3
      = specDelay ⟨3, 100, 5000, 2⟩ 3 :=
  delay_for_attempt_amended.1 ⟨3, 100, 5000, 2⟩ 3 (by norm_num [Int.toNat])
    ⟨400, by norm_num⟩

/-- `RateLimiterConfig` (src/ratelimit.rs lines 58-64): bucket capacity
and the time to refill the whole bucket, as a rational number of
seconds. -/
structure RateLimiterConfig where
  capacity : Nat
  refill_interval : ℚ
deriving DecidableEq

/-- `RateLimiterState` (src/ratelimit.rs lines 66-71): available tokens
(`f64` embedded as `ℚ`) and the instant of the last update, as a rational
timestamp in seconds. -/
structure RateLimiterState where
  tokens : ℚ
  last_update : ℚ
deriving DecidableEq

/-- `RateLimiter::new` (src/ratelimit.rs lines 94-105): the bucket starts
full. -/
def RateLimiter.init (requests : Nat) (now : ℚ) : RateLimiterState :=
  { tokens := (requests : ℚ), last_update := now }

/-- `RateLimiter::refill_tokens` (src/ratelimit.rs lines 198-210);
`Instant::duration_since` saturates at zero when the first instant is
earlier, hence the `max ... 0`. -/
def refill_tokens (cfg : RateLimiterConfig) (now : ℚ) (s : RateLimiterState) :
    RateLimiterState :=
  let elapsed := max (now - s.last_update) 0
  if 0 < elapsed then
    let rate := (cfg.capacity : ℚ) / cfg.refill_interval
    { tokens := min (s.tokens + elapsed * rate) (cfg.capacity : ℚ),
      last_update := now }
  else s

/-- `RateLimiter::try_acquire` (src/ratelimit.rs lines 179-189). -/
def try_acquire (cfg : RateLimiterConfig) (now : ℚ) (s : RateLimiterState) :
    Bool × RateLimiterState :=
  let s2 := refill_tokens cfg now s
  if 1 ≤ s2.tokens then
    (true, { tokens := s2.tokens - 1, last_update := s2.last_update })
  else (false, s2)

/-- `RateLimiter::available` (src/ratelimit.rs lines 192-196): refills,
then truncates the token count (`state.tokens as u32`). -/
def RateLimiter.available (cfg : RateLimiterConfig) (now : ℚ)
    (s : RateLimiterState) : Nat :=
  (Int.floor (refill_tokens cfg now s).tokens).toNat


/-- Iterated `try_acquire` at a fixed instant, collecting the results. -/
def iterAcquire (cfg : RateLimiterConfig) (now : ℚ) (s : RateLimiterState) :
    Nat → List Bool × RateLimiterState
  | 0 => ([], s)
  | k + 1 =>
      let r := try_acquire cfg now s
      let rest := iterAcquire cfg now r.2 k
      (r.1 :: rest.1, rest.2)

theorem iterAcquire_zero (cfg : RateLimiterConfig) (now : ℚ)
    (s : RateLimiterState) : iterAcquire cfg now s 0 = ([], s) := rfl

theorem iterAcquire_succ (cfg : RateLimiterConfig) (now : ℚ)
    (s : RateLimiterState) (k : Nat) :
    iterAcquire cfg now s (k + 1)
      = ((try_acquire cfg now s).1
          :: (iterAcquire cfg now (try_acquire cfg now s).2 k).1,
         (iterAcquire cfg now (try_acquire cfg now s).2 k).2) := rfl

/-- Refilling at the very instant of the last update changes nothing. -/
theorem refill_tokens_same (cfg : RateLimiterConfig) (t0 x : ℚ) :
    refill_tokens cfg t0 ⟨x, t0⟩ = ⟨x, t0⟩ := by
  unfold refill_tokens
  simp

/-- `iterAcquire` splits over addition of call counts. -/
theorem iterAcquire_add (cfg : RateLimiterConfig) (now : ℚ) (a b : Nat) :
    ∀ s : RateLimiterState,
      iterAcquire cfg now s (a + b)
        = ((iterAcquire cfg now s a).1
            ++ (iterAcquire cfg now (iterAcquire cfg now s a).2 b).1,
           (iterAcquire cfg now (iterAcquire cfg now s a).2 b).2) := by
  induction a with
  | zero =>
      intro s
      simp [iterAcquire_zero]
  | succ a ih =>
      intro s
      have hab : a + 1 + b = (a + b) + 1 := by omega
      rw [hab, iterAcquire_succ, ih, iterAcquire_succ cfg now s a]
      simp

/-- Draining a full bucket at one instant: each of the first `k ≤ m`
calls succeeds and each consumes exactly one token. -/
theorem iterAcquire_drain (cfg : RateLimiterConfig) (t0 : ℚ) :
    ∀ (k m : Nat), k ≤ m →
      iterAcquire cfg t0 ⟨(m : ℚ), t0⟩ k
        = (List.replicate k true, ⟨((m - k : Nat) : ℚ), t0⟩) := by
  intro k
  induction k with
  | zero =>
      intro m _
      simp [iterAcquire_zero]
  | succ k ih =>
      intro m hkm
      have hm1 : 1 ≤ m := by omega
      have hta : try_acquire cfg t0 ⟨(m : ℚ), t0⟩
          = (true, ⟨((m - 1 : Nat) : ℚ), t0⟩) := by
        unfold try_acquire
        rw [refill_tokens_same]
        have h1 : (1 : ℚ) ≤ (m : ℚ) := by exact_mod_cast hm1
        have hsub : ((m : ℚ) - 1) = ((m - 1 : Nat) : ℚ) := by
          rw [Nat.cast_sub hm1]
          norm_num
        simp [h1, hsub]
      rw [iterAcquire_succ, hta]
      have h2 := ih (m - 1) (by omega)
      have hmk : m - 1 - k = m - (k + 1) := by omega
      rw [hmk] at h2
      simp only [h2, List.replicate_succ]

/-- C8: starting at full capacity `N`, `N` consecutive `try_acquire`
calls (no time elapsing) all succeed and the `(N+1)`th fails, leaving
zero tokens; one full refill interval later the available count is
restored to `N`; and `0 ≤ tokens ≤ capacity` is preserved by every
`try_acquire` step (for nonnegative refill intervals). -/
theorem rate_limiter_conservation :
    (∀ (cfg : RateLimiterConfig) (t0 : ℚ),
      iterAcquire cfg t0 (RateLimiter.init cfg.capacity t0) (cfg.capacity + 1)
        = (List.replicate cfg.capacity true ++ [false], ⟨0, t0⟩)) ∧
    (∀ (cfg : RateLimiterConfig) (t0 : ℚ), 0 < cfg.refill_interval →
      RateLimiter.available cfg (t0 + cfg.refill_interval) ⟨0, t0⟩
        = cfg.capacity) ∧
    (∀ (cfg : RateLimiterConfig) (now : ℚ) (s : RateLimiterState),
      0 ≤ cfg.refill_interval → 0 ≤ s.tokens → s.tokens ≤ (cfg.capacity : ℚ) →
      0 ≤ (try_acquire cfg now s).2.tokens ∧
        (try_acquire cfg now s).2.tokens ≤ (cfg.capacity : ℚ)) := by
  refine ⟨?_, ?_, ?_⟩
  · intro cfg t0
    have hlast : iterAcquire cfg t0 ⟨((cfg.capacity - cfg.capacity : Nat) : ℚ), t0⟩ 1
        = ([false], ⟨0, t0⟩) := by
      have hzero : ((cfg.capacity - cfg.capacity : Nat) : ℚ) = 0 := by
        simp
      rw [hzero, iterAcquire_succ]
      have hta : try_acquire cfg t0 ⟨0, t0⟩ = (false, ⟨0, t0⟩) := by
        unfold try_acquire
        rw [refill_tokens_same]
        norm_num
      rw [hta]
      simp [iterAcquire_zero]
    rw [iterAcquire_add cfg t0 cfg.capacity 1 (RateLimiter.init cfg.capacity t0)]
    unfold RateLimiter.init
    rw [iterAcquire_drain cfg t0 cfg.capacity cfg.capacity le_rfl]
    rw [hlast]
  · intro cfg t0 hI
    unfold RateLimiter.available refill_tokens
    have helapsed : max (t0 + cfg.refill_interval - t0) 0 = cfg.refill_interval := by
      have h : t0 + cfg.refill_interval - t0 = cfg.refill_interval := by ring
      rw [h, max_eq_left (le_of_lt hI)]
    simp only [helapsed, hI, if_true]
    have hmul : cfg.refill_interval * ((cfg.capacity : ℚ) / cfg.refill_interval)
        = (cfg.capacity : ℚ) := by
      field_simp
    rw [hmul]
    simp [Int.toNat]
  · intro cfg now s hI htok hcap
    have hrate : 0 ≤ (cfg.capacity : ℚ) / cfg.refill_interval :=
      div_nonneg (by positivity) hI
    have href : 0 ≤ (refill_tokens cfg now s).tokens ∧
        (refill_tokens cfg now s).tokens ≤ (cfg.capacity : ℚ) := by
      unfold refill_tokens
      by_cases hc : 0 < max (now - s.last_update) 0
      · simp only [hc, if_true]
        refine ⟨le_min ?_ (by positivity), min_le_right _ _⟩
        have h0 : 0 ≤ max (now - s.last_update) 0 := le_max_right _ _
        nlinarith
      · simp only [hc, if_false]
        exact ⟨htok, hcap⟩
    unfold try_acquire
    by_cases hok : (1 : ℚ) ≤ (refill_tokens cfg now s).tokens
    · simp only [hok, if_true]
      exact ⟨by linarith [href.1, hok], by linarith [href.2]⟩
    · simp only [hok, if_false]
      exact href

/-- C8 witness: capacity 2, refill interval 1s: three calls at one
instant give success, success, failure; and a full interval later the
available count is back to 2. -/
theorem rate_limiter_conservation_witness :
    iterAcquire ⟨2, 1⟩ 0 (RateLimiter.init 2 0) 3
      = ([true, true, false], ⟨0, 0⟩) ∧
    RateLimiter.available ⟨2, 1⟩ (0 + 1) ⟨0, 0⟩ = 2 :=
  ⟨rate_limiter_conservation.1 ⟨2, 1⟩ 0,
   rate_limiter_conservation.2.1 ⟨2, 1⟩ 0 (by norm_num)⟩

/-- `CacheConfig` (src/cache.rs lines 38-45); instants are `Nat`
timestamps, durations `Nat` spans on the same clock. -/
structure CacheConfig where
  ttl : Nat
  max_entries : Nat
deriving DecidableEq

/-- `CacheEntry` (src/cache.rs lines 77-86): serialized bytes plus the
expiry and last-access instants. -/
structure CacheEntry where
  data : List Nat
  expires_at : Nat
  last_accessed : Nat
deriving DecidableEq

/-- The cache map (src/cache.rs line 128): the `HashMap` is embedded as an
association list; `HashMap` iteration order is unspecified and the list
order stands in for it. -/
structure CacheState (K : Type) where
  entries : List (K × CacheEntry)
deriving DecidableEq

/-- `HashMap::get` on the association list: first entry with the key. -/
def assocLookup {K : Type} [DecidableEq K] :
    List (K × CacheEntry) → K → Option CacheEntry
  | [], _ => none
  | p :: rest, k => if p.1 = k then some p.2 else assocLookup rest k

/-- `HashMap::contains_key`. -/
def assocContains {K : Type} [DecidableEq K]
    (l : List (K × CacheEntry)) (k : K) : Bool :=
  (assocLookup l k).isSome

/-- `HashMap::remove`. -/
def assocRemove {K : Type} [DecidableEq K] :
    List (K × CacheEntry) → K → List (K × CacheEntry)
  | [], _ => []
  | p :: rest, k =>
      if p.1 = k then assocRemove rest k else p :: assocRemove rest k

/-- `HashMap::insert`: replaces the value of an existing key in place,
otherwise adds a binding. -/
def assocInsert {K : Type} [DecidableEq K]
    (l : List (K × CacheEntry)) (k : K) (e : CacheEntry) :
    List (K × CacheEntry) :=
  if assocContains l k then l.map (fun p => if p.1 = k then (k, e) else p)
  else l ++ [(k, e)]

/-- The `get_mut` update of `last_accessed` (src/cache.rs lines 202-205). -/
def assocTouch {K : Type} [DecidableEq K]
    (l : List (K × CacheEntry)) (k : K) (now : Nat) : List (K × CacheEntry) :=
  l.map (fun p =>
    if p.1 = k then (p.1, { p.2 with last_accessed := now }) else p)

/-- `Iterator::min_by_key` over `entry.last_accessed` (src/cache.rs lines
255-264): the first element attaining the minimum, in iteration order. -/
def lruMin {K : Type} : List (K × CacheEntry) → Option (K × CacheEntry)
  | [] => none
  | p :: rest =>
      match lruMin rest with
      | none => some p
      | some q => if q.2.last_accessed < p.2.last_accessed then some q else some p

/-- `Cache::evict_lru` (src/cache.rs lines 255-264). -/
def evict_lru {K : Type} [DecidableEq K]
    (l : List (K × CacheEntry)) : List (K × CacheEntry) :=
  match lruMin l with
  | none => l
  | some p => assocRemove l p.1

/-- `Cache::insert` (src/cache.rs lines 155-178): a serialization failure
returns unit at once, leaving the map untouched; otherwise, if at capacity
and the key is new, one LRU eviction precedes the insertion.  The foreign
`serde_json::to_vec` boundary is a parameter. -/
def Cache.insert {K V : Type} [DecidableEq K] (cfg : CacheConfig)
    (serialize : V → Option (List Nat)) (now : Nat)
    (c : CacheState K) (k : K) (v : V) : CacheState K :=
  match serialize v with
  | none => c
  | some data =>
      let entry : CacheEntry := ⟨data, now + cfg.ttl, now⟩
      let entries :=
        if cfg.max_entries ≤ c.entries.length ∧ assocContains c.entries k = false
        then evict_lru c.entries
        else c.entries
      ⟨assocInsert entries k entry⟩

/-- `Cache::get` (src/cache.rs lines 183-213): absent or expired keys give
`none` (expired entries are removed); a hit updates `last_accessed` and
deserializes; a failed deserialization falls through to `none` without
touching the entry. -/
def Cache.get {K V : Type} [DecidableEq K]
    (deserialize : List Nat → Option V) (now : Nat)
    (c : CacheState K) (k : K) : Option V × CacheState K :=
  match assocLookup c.entries k with
  | none => (none, c)
  | some e =>
      if e.expires_at ≤ now then (none, ⟨assocRemove c.entries k⟩)
      else
        match deserialize e.data with
        | some v => (some v, ⟨assocTouch c.entries k now⟩)
        | none => (none, c)


theorem lruMin_mem {K : Type} (l : List (K × CacheEntry))
    (q : K × CacheEntry) (h : lruMin l = some q) : q ∈ l := by
  induction l with
  | nil => simp [lruMin] at h
  | cons p rest ih =>
      cases hr : lruMin rest with
      | none =>
          simp only [lruMin, hr] at h
          cases h
          exact List.mem_cons_self _ _
      | some q2 =>
          simp only [lruMin, hr] at h
          by_cases hlt : q2.2.last_accessed < p.2.last_accessed
          · rw [if_pos hlt] at h
            cases h
            exact List.mem_cons_of_mem _ (ih hr)
          · rw [if_neg hlt] at h
            cases h
            exact List.mem_cons_self _ _

/-- When one key's entry is strictly older than every other key's, the
first-minimum scan finds exactly it. -/
theorem lruMin_eq {K : Type} (l : List (K × CacheEntry)) (k0 : K)
    (e0 : CacheEntry) (hmem : (k0, e0) ∈ l)
    (hnd : (l.map Prod.fst).Nodup)
    (hmin : ∀ q ∈ l, q.1 ≠ k0 → e0.last_accessed < q.2.last_accessed) :
    lruMin l = some (k0, e0) := by
  induction l with
  | nil => simp at hmem
  | cons p rest ih =>
      rw [List.map_cons, List.nodup_cons] at hnd
      rcases List.mem_cons.mp hmem with hp | hrest
      · subst hp
        cases hr : lruMin rest with
        | none => simp only [lruMin, hr]
        | some q =>
            have hqmem := lruMin_mem rest q hr
            have hq1 : q.1 ≠ k0 := by
              intro hq
              exact hnd.1 (List.mem_map.mpr ⟨q, hqmem, hq⟩)
            have hlt := hmin q (List.mem_cons_of_mem _ hqmem) hq1
            simp only [lruMin, hr]
            rw [if_neg (by omega)]
      · have hp1 : p.1 ≠ k0 := by
          intro hp
          exact hnd.1 (hp ▸ List.mem_map.mpr ⟨(k0, e0), hrest, rfl⟩)
        have hih := ih hrest hnd.2
          (fun q hq hq1 => hmin q (List.mem_cons_of_mem _ hq) hq1)
        have hlt := hmin p (List.mem_cons_self _ _) hp1
        simp only [lruMin, hih]
        rw [if_pos (by omega)]

theorem assocLookup_remove_self {K : Type} [DecidableEq K]
    (l : List (K × CacheEntry)) (k0 : K) :
    assocLookup (assocRemove l k0) k0 = none := by
  induction l with
  | nil => rfl
  | cons p rest ih =>
      by_cases hp : p.1 = k0
      · simp only [assocRemove, if_pos hp]
        exact ih
      · simp only [assocRemove, if_neg hp, assocLookup]
        exact ih

theorem assocLookup_remove_other {K : Type} [DecidableEq K]
    (l : List (K × CacheEntry)) (k0 k : K) (hk : k ≠ k0) :
    assocLookup (assocRemove l k0) k = assocLookup l k := by
  induction l with
  | nil => rfl
  | cons p rest ih =>
      by_cases hp : p.1 = k0
      · simp only [assocRemove, if_pos hp, assocLookup]
        rw [if_neg (by rw [hp]; exact fun h => hk h.symm)]
        exact ih
      · simp only [assocRemove, if_neg hp, assocLookup]
        by_cases hpk : p.1 = k
        · rw [if_pos hpk, if_pos hpk]
        · rw [if_neg hpk, if_neg hpk]
          exact ih

theorem assocRemove_of_absent {K : Type} [DecidableEq K]
    (l : List (K × CacheEntry)) (k0 : K)
    (h : ∀ q ∈ l, q.1 ≠ k0) : assocRemove l k0 = l := by
  induction l with
  | nil => rfl
  | cons p rest ih =>
      have hp := h p (List.mem_cons_self _ _)
      simp only [assocRemove, if_neg hp]
      rw [ih (fun q hq => h q (List.mem_cons_of_mem _ hq))]

theorem assocRemove_length {K : Type} [DecidableEq K]
    (l : List (K × CacheEntry)) (k0 : K) (e0 : CacheEntry)
    (hmem : (k0, e0) ∈ l) (hnd : (l.map Prod.fst).Nodup) :
    (assocRemove l k0).length + 1 = l.length := by
  induction l with
  | nil => simp at hmem
  | cons p rest ih =>
      rw [List.map_cons, List.nodup_cons] at hnd
      rcases List.mem_cons.mp hmem with hp | hrest
      · have hp1 : p.1 = k0 := by rw [← hp]
        simp only [assocRemove, if_pos hp1]
        have habs : ∀ q ∈ rest, q.1 ≠ k0 := by
          intro q hq hq1
          exact hnd.1 (hp1 ▸ hq1 ▸ List.mem_map.mpr ⟨q, hq, rfl⟩)
        rw [assocRemove_of_absent rest k0 habs]
        simp
      · have hp1 : ¬ p.1 = k0 := by
          intro hp2
          exact hnd.1 (hp2 ▸ List.mem_map.mpr ⟨(k0, e0), hrest, rfl⟩)
        simp only [assocRemove, if_neg hp1, List.length_cons]
        rw [← ih hrest hnd.2]

theorem assocLookup_append {K : Type} [DecidableEq K]
    (l1 l2 : List (K × CacheEntry)) (k : K) (h : assocLookup l1 k = none) :
    assocLookup (l1 ++ l2) k = assocLookup l2 k := by
  induction l1 with
  | nil => rfl
  | cons p rest ih =>
      simp only [assocLookup] at h
      by_cases hp : p.1 = k
      · rw [if_pos hp] at h
        cases h
      · rw [if_neg hp] at h
        simp only [List.cons_append, assocLookup]
        rw [if_neg hp]
        exact ih h

theorem assocContains_of_mem {K : Type} [DecidableEq K]
    (l : List (K × CacheEntry)) (k0 : K) (e0 : CacheEntry)
    (h : (k0, e0) ∈ l) : assocContains l k0 = true := by
  induction l with
  | nil => simp at h
  | cons p rest ih =>
      unfold assocContains assocLookup
      rcases List.mem_cons.mp h with hp | hrest
      · rw [if_pos (by rw [← hp])]
        rfl
      · by_cases hpk : p.1 = k0
        · rw [if_pos hpk]
          rfl
        · rw [if_neg hpk]
          exact ih hrest

/-- Identity serializer and deserializer standing in for the
`serde_json` round trip on already-byte-shaped values. -/
def natSer : List Nat → Option (List Nat) := fun v => some v

/-- The LRU test scenario from the spec: capacity 2, insert key 10 at
t=1, insert key 20 at t=2, read key 10 at t=3, insert key 30 at t=4. -/
def lruScenario : CacheState Nat :=
  let cfg : CacheConfig := ⟨100, 2⟩
  let c1 := Cache.insert cfg natSer 1 ⟨[]⟩ 10 [1]
  let c2 := Cache.insert cfg natSer 2 c1 20 [2]
  let c3 := (Cache.get natSer 3 c2 10).2
  Cache.insert cfg natSer 4 c3 30 [3]

/-- C6: inserting a new key into a cache at capacity evicts exactly the
entry whose `last_accessed` is the unique global minimum: the result map
is the old map minus that entry plus the fresh binding, the size is
unchanged, the evicted key is gone and the new key maps to the fresh
entry.  Also the spec's concrete scenario: capacity 2, insert `a` and
`b`, access `a`, insert `c` — `b` is evicted, `a` and `c` remain. -/
theorem cache_lru_eviction :
    (∀ (K V : Type) [DecidableEq K] (cfg : CacheConfig)
        (serialize : V → Option (List Nat)) (now : Nat) (c : CacheState K)
        (k k0 : K) (e0 : CacheEntry) (v : V) (data : List Nat),
      serialize v = some data →
      c.entries.length = cfg.max_entries →
      assocContains c.entries k = false →
      (k0, e0) ∈ c.entries →
      (c.entries.map Prod.fst).Nodup →
      (∀ q ∈ c.entries, q.1 ≠ k0 → e0.last_accessed < q.2.last_accessed) →
      (Cache.insert cfg serialize now c k v).entries
          = assocRemove c.entries k0 ++ [(k, ⟨data, now + cfg.ttl, now⟩)] ∧
        (Cache.insert cfg serialize now c k v).entries.length = cfg.max_entries ∧
        assocLookup (Cache.insert cfg serialize now c k v).entries k0 = none ∧
        assocLookup (Cache.insert cfg serialize now c k v).entries k
          = some ⟨data, now + cfg.ttl, now⟩) ∧
    (assocContains lruScenario.entries 10 = true ∧
     assocContains lruScenario.entries 20 = false ∧
     assocContains lruScenario.entries 30 = true) := by
  constructor
  · intro K V instK cfg serialize now c k k0 e0 v data
    intro hser hlen hnew hmem hnd hmin
    have hk0ne : k ≠ k0 := by
      intro hk
      subst hk
      rw [assocContains_of_mem c.entries k e0 hmem] at hnew
      cases hnew
    have hresult : (Cache.insert cfg serialize now c k v).entries
        = assocRemove c.entries k0 ++ [(k, ⟨data, now + cfg.ttl, now⟩)] := by
      unfold Cache.insert
      rw [hser]
      have hcond : cfg.max_entries ≤ c.entries.length ∧
          assocContains c.entries k = false := ⟨le_of_eq hlen.symm, hnew⟩
      simp only [if_pos hcond]
      unfold evict_lru
      rw [lruMin_eq c.entries k0 e0 hmem hnd hmin]
      unfold assocInsert
      have hnc : assocContains (assocRemove c.entries k0) k = false := by
        unfold assocContains at hnew ⊢
        rw [assocLookup_remove_other c.entries k0 k hk0ne]
        exact hnew
      rw [if_neg (by rw [hnc]; exact Bool.false_ne_true)]
    refine ⟨hresult, ?_, ?_, ?_⟩
    · rw [hresult]
      rw [List.length_append]
      have := assocRemove_length c.entries k0 e0 hmem hnd
      simp only [List.length_cons, List.length_nil]
      omega
    · rw [hresult]
      rw [assocLookup_append _ _ _ (assocLookup_remove_self c.entries k0)]
      unfold assocLookup
      rw [if_neg (fun h => hk0ne h)]
      rfl
    · rw [hresult]
      have hnone : assocLookup (assocRemove c.entries k0) k = none := by
        rw [assocLookup_remove_other c.entries k0 k hk0ne]
        unfold assocContains at hnew
        cases hlk : assocLookup c.entries k with
        | none => rfl
        | some e => rw [hlk] at hnew; simp at hnew
      rw [assocLookup_append _ _ _ hnone]
      unfold assocLookup
      rw [if_pos rfl]
  · refine ⟨by decide, by decide, by decide⟩

/-- C6 witness: the general eviction statement applied to a concrete
two-entry cache at capacity, where key 0 holds the oldest entry. -/
theorem cache_lru_eviction_witness :
    (Cache.insert ⟨100, 2⟩ natSer 9
        ⟨[(0, ⟨[5], 50, 1⟩), (1, ⟨[6], 60, 2⟩)]⟩ 2 [7]).entries
      = [(1, ⟨[6], 60, 2⟩), (2, ⟨[7], 109, 9⟩)] := by
  have h := (cache_lru_eviction.1 Nat (List Nat) ⟨100, 2⟩ natSer 9
    ⟨[(0, ⟨[5], 50, 1⟩), (1, ⟨[6], 60, 2⟩)]⟩ 2 0 ⟨[5], 50, 1⟩ [7] [7]
    rfl rfl (by decide) (by decide) (by decide) (by decide)).1
  rw [h]
  decide

/-- C10: when serialization of the value fails, `Cache::insert` leaves
the cache completely unchanged — nothing inserted, removed or evicted —
and the function returns unit, reporting no error (its return type has no
error channel). -/
theorem cache_insert_serialize_fail_noop (K V : Type) [DecidableEq K]
    (cfg : CacheConfig) (serialize : V → Option (List Nat)) (now : Nat)
    (c : CacheState K) (k : K) (v : V) (hser : serialize v = none) :
    Cache.insert cfg serialize now c k v = c := by
  unfold Cache.insert
  rw [hser]

/-- C10 witness: a concrete always-failing serializer on a one-entry
cache. -/
theorem cache_insert_serialize_fail_noop_witness :
    Cache.insert ⟨100, 2⟩ (fun _ => (none : Option (List Nat))) 5
        ⟨[(0, ⟨[1], 50, 1⟩)]⟩ 7 [9]
      = ⟨[(0, ⟨[1], 50, 1⟩)]⟩ :=
  cache_insert_serialize_fail_noop Nat (List Nat) ⟨100, 2⟩
    (fun _ => none) 5 ⟨[(0, ⟨[1], 50, 1⟩)]⟩ 7 [9] rfl

/-- `TagWarning` (src/validation.rs lines 52-81).  Rust `&str` payloads
are embedded as character lists. -/
inductive TagWarning where
  | spacesFound (original suggested : List Char)
  | leadingTrailingWhitespace
  | emptyTag
  | consecutiveUnderscores
  | veryLongTag (length : Nat)
  | unusualCharacters (chars : List Char)
  | unsupportedMetaTag (pfx : List Char)
deriving Repr, DecidableEq

/-- The `Display` implementation for `TagWarning` (src/validation.rs
lines 83-116); the interpolated values and quote characters of the Rust
format strings are elided, keeping the fixed text. -/
def TagWarning.toDisplay : TagWarning → List Char
  | .spacesFound _ _ => "Tag contains spaces".toList
  | .leadingTrailingWhitespace => "Tag has leading or trailing whitespace".toList
  | .emptyTag => "Tag is empty".toList
  | .consecutiveUnderscores => "Tag contains consecutive underscores".toList
  | .veryLongTag _ => "Tag is very long, may cause issues".toList
  | .unusualCharacters _ => "Tag contains unusual characters".toList
  | .unsupportedMetaTag _ => "Meta tag may not be supported on all booru sites".toList

/-- `TagValidation` (src/validation.rs lines 24-34). -/
structure TagValidation where
  original : List Char
  normalized : Option (List Char)
  warnings : List TagWarning
  is_valid : Bool
deriving Repr, DecidableEq

/-- `COMMON_META_TAGS` (src/validation.rs lines 119-122). -/
def COMMON_META_TAGS : List (List Char) :=
  ["rating".toList, "score".toList, "order".toList, "sort".toList,
   "user".toList, "height".toList, "width".toList, "id".toList,
   "md5".toList, "source".toList, "parent".toList, "pool".toList]

/-- `DANBOORU_ONLY_META_TAGS` (src/validation.rs lines 125-136). -/
def DANBOORU_ONLY_META_TAGS : List (List Char) :=
  ["pixiv_id".toList, "favcount".toList, "gentags".toList,
   "arttags".toList, "chartags".toList, "copytags".toList,
   "approver".toList, "commenter".toList, "noter".toList,
   "flagger".toList]

/-- `str::trim`: strips whitespace from both ends. -/
def trimChars (l : List Char) : List Char :=
  ((l.dropWhile Char.isWhitespace).reverse.dropWhile Char.isWhitespace).reverse

/-- `str::contains("__")`. -/
def hasDoubleUnderscore : List Char → Bool
  | a :: b :: rest => (a == '_' && b == '_') || hasDoubleUnderscore (b :: rest)
  | _ => false

/-- `str::len`: the UTF-8 byte length. -/
def utf8Len (l : List Char) : Nat :=
  (l.map Char.utf8Size).sum

/-- `str::find(':')` followed by slicing `[..pos]`: the text before the
first colon, or `none` when there is no colon. -/
def metaPrefixChars : List Char → Option (List Char)
  | [] => none
  | c :: rest =>
      if c = ':' then some []
      else (metaPrefixChars rest).map (fun p => c :: p)

/-- The allow-list test from the unusual-character filter
(src/validation.rs lines 205-221).  Rust `char::is_alphanumeric` is
Unicode-aware; `Char.isAlphanum` covers the ASCII range, which coincides
on ASCII tags. -/
def isUsualChar (c : Char) : Bool :=
  c.isAlphanum || c == '_' || c == '-' || c == ':' || c == '(' || c == ')'
    || c == '<' || c == '>' || c == '=' || c == '.' || c == '*' || c == '?'

/-- `validate_tag` (src/validation.rs lines 159-243). -/
def validate_tag (tag : List Char) : TagValidation :=
  if tag = [] then
    { original := tag, normalized := none,
      warnings := [.emptyTag], is_valid := false }
  else
    let trimmed := trimChars tag
    let step1 : List TagWarning × Option (List Char) :=
      if trimmed ≠ tag then ([.leadingTrailingWhitespace], some trimmed)
      else ([], none)
    let working := trimmed
    let step2 : List TagWarning × Option (List Char) :=
      if working.contains ' ' then
        let suggested := working.map (fun c => if c = ' ' then '_' else c)
        (step1.1 ++ [.spacesFound working suggested], some suggested)
      else step1
    let w3 :=
      if hasDoubleUnderscore working then step2.1 ++ [.consecutiveUnderscores]
      else step2.1
    let w4 :=
      if 100 < utf8Len working then w3 ++ [.veryLongTag (utf8Len working)]
      else w3
    let unusual := working.filter (fun c => !(isUsualChar c))
    let w5 :=
      if unusual ≠ [] then w4 ++ [.unusualCharacters unusual] else w4
    let w6 :=
      match metaPrefixChars working with
      | some p =>
          if ¬ COMMON_META_TAGS.contains p ∧ DANBOORU_ONLY_META_TAGS.contains p
          then w5 ++ [.unsupportedMetaTag p]
          else w5
      | none => w5
    { original := tag, normalized := step2.2, warnings := w6, is_valid := true }

/-- `validate_tag_strict` (src/validation.rs lines 262-281). -/
def validate_tag_strict (tag : List Char) : Except BooruError (List Char) :=
  let result := validate_tag tag
  if result.is_valid = false then
    .error (.invalidTag (String.mk tag)
      (String.mk (((result.warnings.head?).map TagWarning.toDisplay).getD
        "Unknown validation error".toList)))
  else
    match result.normalized with
    | some n => .ok n
    | none => .ok tag

/-- Every nonempty tag validates with `is_valid = true`. -/
theorem validate_tag_isValid (t : List Char) (ht : t ≠ []) :
    (validate_tag t).is_valid = true := by
  simp [validate_tag, ht]

/-- C9 counterexample: the tag `cat ears` produces a warning
(`SpacesFound`), yet the strict variant succeeds with the normalized
form instead of erroring on the first warning. -/
theorem strict_accepts_warned_tag :
    (validate_tag "cat ears".toList).warnings ≠ [] ∧
    validate_tag_strict "cat ears".toList = .ok "cat_ears".toList := by
  refine ⟨by decide, by rfl⟩

/-- C9 amended: `is_valid` is false exactly for the empty tag; the strict
variant errors only in that case (reporting the first warning as the
reason) and succeeds on every nonempty tag — returning the normalized
form when one exists — even when warnings are present. -/
theorem validate_tag_strict_amended :
    (∀ t : List Char, ((validate_tag t).is_valid = false ↔ t = [])) ∧
    (∀ t : List Char, t ≠ [] →
      validate_tag_strict t = .ok (((validate_tag t).normalized).getD t)) ∧
    validate_tag_strict [] = .error (.invalidTag "" "Tag is empty") := by
  refine ⟨?_, ?_, by rfl⟩
  · intro t
    by_cases ht : t = []
    · simp [validate_tag, ht]
    · simp [validate_tag, ht]
  · intro t ht
    have hvalid := validate_tag_isValid t ht
    have hcond : ((validate_tag t).is_valid = false) = False := by
      simp [hvalid]
    simp only [validate_tag_strict, hcond, if_false]
    cases hn : (validate_tag t).normalized with
    | some n => simp [hn]
    | none => simp [hn]

/-- C9 amended witness: a warning-free tag passes strict validation
unchanged. -/
theorem validate_tag_strict_amended_witness :
    validate_tag_strict "cat_ears".toList = .ok "cat_ears".toList := by
  have h := validate_tag_strict_amended.2.1 "cat_ears".toList (by decide)
  rw [h]
  rfl

/-- `PageStream` state (src/stream.rs lines 36-41); the builder snapshot
is reduced to its `page` field (`start_page`), the only field the
pagination logic reads, and the one-shot `client.get()` call at the
overridden page cursor becomes an explicit `fetch` function from page
numbers to results. -/
structure PageState where
  start_page : Nat
  current_page : Nat
  exhausted : Bool
  max_pages : Option Nat
deriving Repr, DecidableEq

/-- `PageStream::new` (src/stream.rs lines 45-53). -/
def PageStream.new (page : Nat) : PageState :=
  { start_page := page, current_page := page, exhausted := false,
    max_pages := none }

/-- The max-pages test of `PageStream::next` (src/stream.rs lines 76-82):
`pages_fetched = current_page.saturating_sub(builder.page)`. -/
def pageCapReached (s : PageState) : Bool :=
  match s.max_pages with
  | some max => max ≤ s.current_page - s.start_page
  | none => false

/-- `PageStream::next` (src/stream.rs lines 70-103). -/
def pageNext {P E : Type} (fetch : Nat → Except E (List P)) (s : PageState) :
    Option (Except E (List P)) × PageState :=
  if s.exhausted then (none, s)
  else if pageCapReached s then (none, { s with exhausted := true })
  else
    match fetch s.current_page with
    | .ok posts =>
        if posts.isEmpty then (some (.ok posts), { s with exhausted := true })
        else (some (.ok posts), { s with current_page := s.current_page + 1 })
    | .error e => (some (.error e), { s with exhausted := true })

/-- `PostStream` state (src/stream.rs lines 133-139). -/
structure PostState (P : Type) where
  page_stream : PageState
  buffer : List P
  buffer_index : Nat
  posts_yielded : Nat
  max_posts : Option Nat
deriving Repr, DecidableEq

/-- `PostStream::new` (src/stream.rs lines 143-151). -/
def PostStream.new {P : Type} (page : Nat) : PostState P :=
  { page_stream := PageStream.new page, buffer := [], buffer_index := 0,
    posts_yielded := 0, max_posts := none }

/-- `Vec::swap_remove(i)`: removes index `i`, returning the element, and
moves the last element into the hole; `none` when `i` is out of
bounds. -/
def swapRemove {α : Type} (l : List α) (i : Nat) : Option (α × List α) :=
  match l.get? i with
  | none => none
  | some x => some (x, (l.set i ((l.getLast?).getD x)).dropLast)

/-- The max-posts test at the top of `PostStream::next` (src/stream.rs
lines 182-185). -/
def postCapReached {P : Type} (s : PostState P) : Bool :=
  match s.max_posts with
  | some max => decide (max ≤ s.posts_yielded)
  | none => false

/-- `PostStream::next` (src/stream.rs lines 180-216). -/
def postNext {P E : Type} (fetch : Nat → Except E (List P)) (s : PostState P) :
    Option (Except E P) × PostState P :=
  if postCapReached s then
    (none, s)
  else if s.buffer_index < s.buffer.length then
    match swapRemove s.buffer s.buffer_index with
    | some (post, buffer2) =>
        (some (.ok post),
         { s with buffer := buffer2, buffer_index := 0,
                  posts_yielded := s.posts_yielded + 1 })
    | none => (none, s)
  else
    match pageNext fetch s.page_stream with
    | (none, ps2) => (none, { s with page_stream := ps2 })
    | (some (.error e), ps2) => (some (.error e), { s with page_stream := ps2 })
    | (some (.ok posts), ps2) =>
        if posts.isEmpty then (none, { s with page_stream := ps2 })
        else
          match swapRemove posts 0 with
          | some (post, buffer2) =>
              (some (.ok post),
               { s with page_stream := ps2, buffer := buffer2,
                        buffer_index := 1,
                        posts_yielded := s.posts_yielded + 1 })
          | none => (none, { s with page_stream := ps2 })

/-- Repeated `PostStream::next` with fuel, collecting the yielded
results and stopping at the first `none`. -/
def postDrain {P E : Type} (fetch : Nat → Except E (List P)) :
    Nat → PostState P → List (Except E P) × PostState P
  | 0, s => ([], s)
  | k + 1, s =>
      match postNext fetch s with
      | (none, s2) => ([], s2)
      | (some r, s2) =>
          let rest := postDrain fetch k s2
          (r :: rest.1, rest.2)

def onePageFetch (l : List Nat) : Nat → Except Unit (List Nat) :=
  fun p => if p = 0 then .ok l else .ok []


def twoPageFetch (a b : Nat) : Nat → Except Unit (List Nat) :=
  fun p => if p = 0 then .ok [a] else if p = 1 then .ok [b] else .ok []

/-- A one-page source that errors if any page past 0 is requested, used
to detect over-fetching. -/
def poisonFetch : Nat → Except Unit (List Nat) :=
  fun p => if p = 0 then .ok [1,2,3,4,5,6,7,8,9,10] else .error ()

/-- C3 counterexample: a single fetched page `[1,2,3,4]` is yielded as
`1, 2, 4, 3` — the swap-based pop does not preserve the within-page
order. -/
theorem post_order_counterexample :
    (postDrain (onePageFetch [1, 2, 3, 4]) 10 (PostStream.new 0)).1
      = [.ok 1, .ok 2, .ok 4, .ok 3] ∧
    ¬ (postDrain (onePageFetch [1, 2, 3, 4]) 10 (PostStream.new 0)).1
      = [.ok 1, .ok 2, .ok 3, .ok 4] := by
  have h : (postDrain (onePageFetch [1, 2, 3, 4]) 10 (PostStream.new 0)).1
      = [.ok 1, .ok 2, .ok 4, .ok 3] := rfl
  refine ⟨h, ?_⟩
  rw [h]
  simp

/-- C3 amended: the first post of a page is yielded first and, for pages
of three posts, the original order survives; pages of four posts come out
as `p1, p2, p4, p3`; a two-post page yields only its first post (the
second is overwritten when the next page is fetched); pages themselves
are consumed in page order. -/
theorem post_stream_order_amended :
    (∀ a b c : Nat,
      (postDrain (onePageFetch [a, b, c]) 10 (PostStream.new 0)).1
        = [.ok a, .ok b, .ok c]) ∧
    (∀ a b c d : Nat,
      (postDrain (onePageFetch [a, b, c, d]) 10 (PostStream.new 0)).1
        = [.ok a, .ok b, .ok d, .ok c]) ∧
    (∀ a b : Nat,
      (postDrain (onePageFetch [a, b]) 10 (PostStream.new 0)).1 = [.ok a]) ∧
    (∀ a b : Nat,
      (postDrain (twoPageFetch a b) 10 (PostStream.new 0)).1
        = [.ok a, .ok b]) :=
  ⟨fun _ _ _ => rfl, fun _ _ _ _ => rfl, fun _ _ => rfl, fun _ _ => rfl⟩

/-- C4: the Exhausted state is terminal and transition-complete: an
exhausted stream answers `none` for every fetch function (so no fetch is
issued) with unchanged state; a call returning an error or an empty page
leaves the stream exhausted; reaching the max-page cap exhausts the
stream with no result; and an error is surfaced exactly once — any call
after the transitioning one returns `none`. -/
theorem page_stream_exhausted_terminal :
    (∀ (P E : Type) (f : Nat → Except E (List P)) (s : PageState),
        s.exhausted = true → pageNext f s = (none, s)) ∧
    (∀ (P E : Type) (f : Nat → Except E (List P)) (s s2 : PageState) (e : E),
        pageNext f s = (some (.error e), s2) → s2.exhausted = true) ∧
    (∀ (P E : Type) (f : Nat → Except E (List P)) (s s2 : PageState)
        (posts : List P),
        pageNext f s = (some (.ok posts), s2) → posts.isEmpty = true →
        s2.exhausted = true) ∧
    (∀ (P E : Type) (f : Nat → Except E (List P)) (s : PageState),
        s.exhausted = false → pageCapReached s = true →
        pageNext f s = (none, { s with exhausted := true })) ∧
    (∀ (P E : Type) (f g : Nat → Except E (List P)) (s s2 : PageState) (e : E),
        pageNext f s = (some (.error e), s2) → pageNext g s2 = (none, s2)) := by
  have habsorb : ∀ (P E : Type) (f : Nat → Except E (List P)) (s : PageState),
      s.exhausted = true → pageNext f s = (none, s) := by
    intro P E f s h
    simp [pageNext, h]
  have herr : ∀ (P E : Type) (f : Nat → Except E (List P)) (s s2 : PageState)
      (e : E), pageNext f s = (some (.error e), s2) → s2.exhausted = true := by
    intro P E f s s2 e h
    unfold pageNext at h
    split at h
    · simp at h
    · split at h
      · simp at h
      · split at h
        · split at h <;> simp_all
        · simp_all
          rw [← h.2]
  refine ⟨habsorb, herr, ?_, ?_, ?_⟩
  · intro P E f s s2 posts h hemp
    unfold pageNext at h
    split at h
    · simp at h
    · split at h
      · simp at h
      · split at h
        · split at h
          · rw [Prod.mk.injEq] at h
            rw [← h.2]
          · rw [Prod.mk.injEq] at h
            obtain ⟨h1, h2⟩ := h
            simp only [Option.some.injEq, Except.ok.injEq] at h1
            subst h1
            simp_all
        · rw [Prod.mk.injEq] at h
          simp at h
  · intro P E f s hex hcap
    simp [pageNext, hex, hcap]
  · intro P E f g s s2 e h
    exact habsorb P E g s2 (herr P E f s s2 e h)

/-- C4 witness: the terminal behaviour applied after a concrete error
transition: the stream that just surfaced an error answers `none` to a
different fetch function without touching it. -/
theorem page_stream_exhausted_terminal_witness :
    pageNext (fun _ => (.ok [1] : Except Unit (List Nat))) ⟨0, 0, true, none⟩
      = (none, ⟨0, 0, true, none⟩) :=
  page_stream_exhausted_terminal.2.2.2.2 Nat Unit (fun _ => .error ())
    (fun _ => .ok [1]) (PageStream.new 0) ⟨0, 0, true, none⟩ () rfl

/-- C5: with `max_posts = some c`, a stream that has yielded `c` posts
answers `none` for every fetch function (no page is requested) with
unchanged state; every step preserves `posts_yielded ≤ c`; and in the
concrete scenario (cap 5, first page of 10 posts, any later fetch an
error) exactly 5 posts come out and the poisoned later pages are never
touched. -/
theorem post_stream_max_posts :
    (∀ (P E : Type) (f : Nat → Except E (List P)) (s : PostState P) (c : Nat),
        s.max_posts = some c → c ≤ s.posts_yielded →
        postNext f s = (none, s)) ∧
    (∀ (P E : Type) (f : Nat → Except E (List P)) (s : PostState P) (c : Nat),
        s.max_posts = some c → s.posts_yielded ≤ c →
        (postNext f s).2.posts_yielded ≤ c ∧
          (postNext f s).2.max_posts = some c) ∧
    ((postDrain poisonFetch 20 { PostStream.new 0 with max_posts := some 5 }).1
        = [.ok 1, .ok 2, .ok 10, .ok 8, .ok 7] ∧
     (postDrain poisonFetch 20
        { PostStream.new 0 with max_posts := some 5 }).2.posts_yielded = 5) := by
  refine ⟨?_, ?_, rfl, rfl⟩
  · intro P E f s c hmax hle
    simp [postNext, postCapReached, hmax, hle]
  · intro P E f s c hmax hle
    by_cases hcap : postCapReached s = true
    · simp only [postNext, hcap, if_true]
      exact ⟨hle, hmax⟩
    · have hcap2 : postCapReached s = false := by
        revert hcap
        cases postCapReached s <;> simp
      have hlt : s.posts_yielded < c := by
        unfold postCapReached at hcap2
        rw [hmax] at hcap2
        simpa using hcap2
      have hco : ¬ (postCapReached s = true) := by simp [hcap2]
      unfold postNext
      rw [if_neg hco]
      split
      · split
        · exact ⟨hlt, hmax⟩
        · exact ⟨hle, hmax⟩
      · split
        · exact ⟨hle, hmax⟩
        · exact ⟨hle, hmax⟩
        · split
          · exact ⟨hle, hmax⟩
          · split
            · exact ⟨hlt, hmax⟩
            · exact ⟨hle, hmax⟩

/-- C5 witness: the cap check applied at a concrete stream that has
already yielded its maximum of 5 posts. -/
theorem post_stream_max_posts_witness :
    postNext (fun _ => (.ok [] : Except Unit (List Nat)))
        ⟨PageStream.new 0, [], 0, 5, some 5⟩
      = (none, ⟨PageStream.new 0, [], 0, 5, some 5⟩) :=
  post_stream_max_posts.1 Nat Unit (fun _ => .ok [])
    ⟨PageStream.new 0, [], 0, 5, some 5⟩ 5 rfl (le_refl 5)
